import Mathlib

/-!
Pipefitter: the reconciliation core.

A shallow embedding of `contains` (config.go), `updateTargets` (awsTargets.go) and
`updateVPCEndpointPermissions` (awsVPCe.go).

Conventions of the embedding.

* A Go `string` is a Lean `String` (valid UTF-8 text); `len(s)` is the number of bytes,
  `String.utf8ByteSize`.
* A Go `[]string` is a `List String`; `append(xs, x)` is `xs ++ [x]`; a `nil` slice is `[]`.
* The AWS services are external. Each one is a record of transition functions over an
  arbitrary provider state, so a call may answer anything and may fail with any error.
  Every call that is issued is appended to a trace together with its outcome.
* `fmt.Printf` appends the formatted text to an output list.
* A Go `map[string][]string` that is ranged over is the list of its entries in the
  order in which the range statement visits them.
-/

namespace Pipefitter

/-! ## config.go -/

/-- The fields of `config` read by the two reconcilers. -/
structure Config where
  PLAllowedPeers : List String
  TargetPort : Int

/-- Membership test `contains(s, e)`: scan `s` and answer true at the first element equal
to `e`. -/
def contains (s : List String) (e : String) : Bool :=
  match s with
  | [] => false
  | a :: rest => if a = e then true else contains rest e

/-! ## awsTargets.go -/

/-- The record `elbv2.TargetDescription`, with the three fields the code sets. -/
structure TargetDescription where
  AvailabilityZone : String
  Id : String
  Port : Int
  deriving DecidableEq, Repr

/-- Accumulator of one of the two diff loops of `updateTargets`: the target descriptions
and, in step with them, the identifiers. -/
structure TargetAcc where
  targets : List TargetDescription
  ips : List String
  deriving DecidableEq, Repr

/-- The target description built at lines 72-76 and again at lines 97-101. -/
def describeTarget (config : Config) (ip : String) : TargetDescription :=
  { AvailabilityZone := "all", Id := ip, Port := config.TargetPort }

/-- Body of both diff loops (lines 70-80 and 95-105): an identifier `ip` that `other` does
not contain is appended, as a target description and as a bare identifier. -/
def diffStep (config : Config) (other : List String) (acc : TargetAcc) (ip : String) :
    TargetAcc :=
  if !contains other ip then
    { targets := acc.targets ++ [describeTarget config ip], ips := acc.ips ++ [ip] }
  else acc

/-- Lines 70-80: `regNewTargets` and `regNewTargetIPs` after the loop over
`targetHostIPs`. -/
def regNew (config : Config) (targetHostIPs ips : List String) : TargetAcc :=
  targetHostIPs.foldl (diffStep config ips) { targets := [], ips := [] }

/-- Lines 95-105: `deregOldTargets` and `deregOldTargetIPs` after the loop over `ips`. -/
def deregOld (config : Config) (targetHostIPs ips : List String) : TargetAcc :=
  ips.foldl (diffStep config targetHostIPs) { targets := [], ips := [] }

/-- Rendering of a `[]string` under the verb `%s` of `fmt.Printf`: the elements separated
by blanks, in square brackets. -/
def fmtStrings (xs : List String) : String :=
  "[" ++ " ".intercalate xs ++ "]"

/-- What a run of a reconciler leaves behind: the provider state, the provider calls
issued (each with the error it failed with, if any), the text printed, and the value
returned. -/
structure Outcome (σ κ ε ρ : Type) where
  world : σ
  calls : List (κ × Option ε)
  out : List String
  ret : ρ

/-- The element type of `resp.TargetHealthDescriptions`; only `Target.Id` is read. -/
structure TargetHealthDescription where
  Target : TargetDescription
  deriving DecidableEq, Repr

/-- The calls `updateTargets` makes on the elbv2 service. -/
inductive Elbv2Call where
  | DescribeTargetHealth (region tg : String)
  | RegisterTargets (region tg : String) (targets : List TargetDescription)
  | DeregisterTargets (region tg : String) (targets : List TargetDescription)
  deriving DecidableEq, Repr

/-- The elbv2 service: each call takes the provider state to a new state and either fails
with an error or answers. Nothing is assumed about the answers. -/
structure Elbv2 (σ ε : Type) where
  DescribeTargetHealth : σ → String → String → σ × Except ε (List TargetHealthDescription)
  RegisterTargets : σ → String → String → List TargetDescription → σ × Option ε
  DeregisterTargets : σ → String → String → List TargetDescription → σ × Option ε

/-- The provider state after one call, whatever the call answered. -/
def Elbv2.after {σ ε : Type} (svc : Elbv2 σ ε) (w : σ) : Elbv2Call → σ
  | Elbv2Call.DescribeTargetHealth region tg => (svc.DescribeTargetHealth w region tg).1
  | Elbv2Call.RegisterTargets region tg targets => (svc.RegisterTargets w region tg targets).1
  | Elbv2Call.DeregisterTargets region tg targets =>
      (svc.DeregisterTargets w region tg targets).1

/-- The provider state after a sequence of calls issued in order. -/
def Elbv2.replay {σ ε : Type} (svc : Elbv2 σ ε) (w : σ) (calls : List (Elbv2Call × Option ε)) :
    σ :=
  calls.foldl (fun w c => svc.after w c.1) w

/-- Lines 118-127: the update line of one target group. -/
def reportTargets (tg : String) (reg dereg : TargetAcc) (changes : Bool) : List String :=
  if changes then
    ["INFO : ELB Target Update: " ++ tg ++ " "] ++
      (if reg.targets.length > 0 ∧ dereg.targets.length > 0 then
        ["added " ++ fmtStrings reg.ips ++ ", removed " ++ fmtStrings dereg.ips ++ "\n"]
      else if reg.targets.length > 0 ∧ dereg.targets.length = 0 then
        ["added " ++ fmtStrings reg.ips ++ "\n"]
      else if reg.targets.length = 0 ∧ dereg.targets.length > 0 then
        ["removed " ++ fmtStrings dereg.ips ++ "\n"]
      else [])
  else []

/-- Lines 94-127 of the loop body, entered with the provider state `w`, the calls issued
so far for this target group and the current value of `changes`. -/
def deregisterAndReport {σ ε : Type} (svc : Elbv2 σ ε) (config : Config)
    (targetHostIPs : List String) (region tg : String) (ips : List String) (reg : TargetAcc)
    (changes : Bool) (w : σ) (calls : List (Elbv2Call × Option ε)) :
    Outcome σ Elbv2Call ε (Option ε) :=
  let dereg := deregOld config targetHostIPs ips
  if dereg.targets.length > 0 then
    match svc.DeregisterTargets w region tg dereg.targets with
    | (w2, some err) =>
      { world := w2,
        calls := calls ++ [(Elbv2Call.DeregisterTargets region tg dereg.targets, some err)],
        out := [], ret := some err }
    | (w2, none) =>
      { world := w2,
        calls := calls ++ [(Elbv2Call.DeregisterTargets region tg dereg.targets, none)],
        out := reportTargets tg reg dereg true, ret := none }
  else
    { world := w, calls := calls, out := reportTargets tg reg dereg changes, ret := none }

/-- Lines 50-127: the body of the inner loop of `updateTargets`, for one target group.
`ret` is `some err` when the body executes `return err`. -/
def updateTargetGroup {σ ε : Type} (svc : Elbv2 σ ε) (config : Config)
    (targetHostIPs : List String) (region tg : String) (w : σ) :
    Outcome σ Elbv2Call ε (Option ε) :=
  match svc.DescribeTargetHealth w region tg with
  | (w1, Except.error err) =>
    { world := w1, calls := [(Elbv2Call.DescribeTargetHealth region tg, some err)],
      out := [], ret := some err }
  | (w1, Except.ok resp) =>
    let ips := resp.map (fun targetHealth => targetHealth.Target.Id)
    let reg := regNew config targetHostIPs ips
    let described : List (Elbv2Call × Option ε) :=
      [(Elbv2Call.DescribeTargetHealth region tg, none)]
    if reg.targets.length > 0 then
      match svc.RegisterTargets w1 region tg reg.targets with
      | (w2, some err) =>
        { world := w2,
          calls := described ++ [(Elbv2Call.RegisterTargets region tg reg.targets, some err)],
          out := [], ret := some err }
      | (w2, none) =>
        deregisterAndReport svc config targetHostIPs region tg ips reg true w2
          (described ++ [(Elbv2Call.RegisterTargets region tg reg.targets, none)])
    else
      deregisterAndReport svc config targetHostIPs region tg ips reg false w1 described

/-- Lines 49-128: the inner loop, over the target groups of one region. A `return err` of
the body ends the loop. -/
def updateTargetsRegion {σ ε : Type} (svc : Elbv2 σ ε) (config : Config)
    (targetHostIPs : List String) (region : String) :
    List String → σ → Outcome σ Elbv2Call ε (Option ε)
  | [], w => { world := w, calls := [], out := [], ret := none }
  | tg :: rest, w =>
    let r := updateTargetGroup svc config targetHostIPs region tg w
    match r.ret with
    | some err => { r with ret := some err }
    | none =>
      let r2 := updateTargetsRegion svc config targetHostIPs region rest r.world
      { world := r2.world, calls := r.calls ++ r2.calls, out := r.out ++ r2.out,
        ret := r2.ret }

/-- Function `updateTargets` (lines 47-131). `targetGroupARNs` lists the entries of the map
in the order the outer range visits them. -/
def updateTargets {σ ε : Type} (svc : Elbv2 σ ε) (config : Config)
    (targetHostIPs : List String) :
    List (String × List String) → σ → Outcome σ Elbv2Call ε (Option ε)
  | [], w => { world := w, calls := [], out := [], ret := none }
  | (region, tgs) :: rest, w =>
    let r := updateTargetsRegion svc config targetHostIPs region tgs w
    match r.ret with
    | some err => { r with ret := some err }
    | none =>
      let r2 := updateTargets svc config targetHostIPs rest r.world
      { world := r2.world, calls := r.calls ++ r2.calls, out := r.out ++ r2.out,
        ret := r2.ret }

/-- Whether a call on the elbv2 service is a write call. -/
def Elbv2Call.isWrite : Elbv2Call → Bool
  | Elbv2Call.DescribeTargetHealth _ _ => false
  | Elbv2Call.RegisterTargets _ _ _ => true
  | Elbv2Call.DeregisterTargets _ _ _ => true

/-- The shape of a run that stops at the first failing call: either nothing is returned
and no issued call failed, or the error returned is the error of the last issued call and
no call before it failed; and the provider state is the one reached by the issued calls,
in order, from the initial state `w`. -/
def StopsAtFirstError {σ ε : Type} (svc : Elbv2 σ ε) (w : σ)
    (r : Outcome σ Elbv2Call ε (Option ε)) : Prop :=
  ((r.ret = none ∧ ∀ c ∈ r.calls, c.2 = none) ∨
    (∃ e pre call, r.ret = some e ∧ r.calls = pre ++ [(call, some e)] ∧
      ∀ c ∈ pre, c.2 = none)) ∧
  r.world = svc.replay w r.calls

/-- A provider for the examples. Its state is the list of registrations, each a target
group with an identifier. Reading the group "tg-unreadable" fails, registering in the
group "tg-readonly" fails, every other call succeeds and has the expected effect. -/
def sampleElbv2 : Elbv2 (List (String × String)) String :=
  { DescribeTargetHealth := fun w _ tg =>
      if tg = "tg-unreadable" then (w, Except.error "AccessDenied")
      else (w, Except.ok ((w.filter (fun m => decide (m.1 = tg))).map (fun m =>
        { Target := { AvailabilityZone := "all", Id := m.2, Port := 443 } }))),
    RegisterTargets := fun w _ tg targets =>
      if tg = "tg-readonly" then (w, some "Throttled")
      else (w ++ targets.map (fun t => (tg, t.Id)), none),
    DeregisterTargets := fun w _ tg targets =>
      (w.filter (fun m =>
        !(decide (m.1 = tg) && contains (targets.map (fun t => t.Id)) m.2)), none) }

/-- The configuration of the examples. -/
def sampleConfig : Config :=
  { PLAllowedPeers := ["111111111111"], TargetPort := 443 }

/-! ## The library functions used by awsVPCe.go -/

/-- Whether `sub` occurs in the text as a contiguous block. -/
def containsChars (sub : List Char) : List Char → Bool
  | [] => sub.isPrefixOf []
  | c :: cs => sub.isPrefixOf (c :: cs) || containsChars sub cs

/-- Library function `strings.Contains(s, substr)`. -/
def stringsContains (s substr : String) : Bool :=
  containsChars substr.data s.data

/-- Scan of `strings.Split` for a non-empty separator: the text is cut at each occurrence
of `sep`, found from left to right, occurrences not overlapping. `skip` counts the
characters of a separator just found that are still to be passed over and `cur` is the
field being collected. -/
def splitChars (sep : List Char) : Nat → List Char → List Char → List (List Char)
  | _, cur, [] => [cur]
  | skip + 1, cur, _ :: cs => splitChars sep skip cur cs
  | 0, cur, c :: cs =>
    if sep.isPrefixOf (c :: cs) then cur :: splitChars sep (sep.length - 1) [] cs
    else splitChars sep 0 (cur ++ [c]) cs

/-- Library function `strings.Split(s, sep)`: with an empty separator the text is cut
after every character, otherwise at every occurrence of the separator. -/
def stringsSplit (s sep : String) : List String :=
  if sep.data = [] then s.data.map (fun c => String.mk [c])
  else (splitChars sep.data 0 [] s.data).map String.mk

/-! ## awsVPCe.go -/

/-- Value of `fmt.Sprintf("arn:aws:iam::%s:root", account)`. -/
def rootArn (account : String) : String :=
  "arn:aws:iam::" ++ account ++ ":root"

/-- Lines 67-73: what the read loop appends to `principalsOnEndpoint` for the observed
principal `p`. The result is `none` when the index expression `strings.Split(p, ":")[4]`
is out of range, where the Go program panics. -/
def normalise (p : String) : Option String :=
  if stringsContains p ":root" then (stringsSplit p ":")[4]?
  else some p

/-- Lines 64-74: the read loop, started with the slice built so far. -/
def principalsOnEndpointFrom : List String → List String → Option (List String)
  | acc, [] => some acc
  | acc, p :: rest =>
    match normalise p with
    | none => none
    | some a => principalsOnEndpointFrom (acc ++ [a]) rest

/-- Lines 64-74: `principalsOnEndpoint` after the loop over `vpcresp.AllowedPrincipals`. -/
def principalsOnEndpoint (allowedPrincipals : List String) : Option (List String) :=
  principalsOnEndpointFrom [] allowedPrincipals

/-- The three variables declared at lines 76-78. -/
structure PermDiff where
  principalsToAdd : List String
  principalsToRemove : List String
  changes : Bool
  deriving DecidableEq, Repr

/-- Body of the loop at lines 79-85. -/
def addStep (onEndpoint : List String) (d : PermDiff) (account : String) : PermDiff :=
  if !contains onEndpoint account then
    { d with principalsToAdd := d.principalsToAdd ++ [rootArn account], changes := true }
  else d

/-- Body of the loop at lines 86-98. -/
def removeStep (allowedPeers : List String) (d : PermDiff) (account : String) : PermDiff :=
  if !contains allowedPeers account then
    if account.utf8ByteSize = 12 then
      { d with principalsToRemove := d.principalsToRemove ++ [rootArn account],
               changes := true }
    else
      { d with principalsToRemove := d.principalsToRemove ++ [account], changes := true }
  else d

/-- Lines 76-98: the three variables after both loops. -/
def permDiff (allowedPeers onEndpoint : List String) : PermDiff :=
  onEndpoint.foldl (removeStep allowedPeers)
    (allowedPeers.foldl (addStep onEndpoint)
      { principalsToAdd := [], principalsToRemove := [], changes := false })

/-- The calls `updateVPCEndpointPermissions` makes on the ec2 service. In the modify call
a list field that the code leaves unset is `none`. -/
inductive Ec2Call where
  | DescribeVpcEndpointServicePermissions (region serviceId : String)
  | ModifyVpcEndpointServicePermissions (region serviceId : String)
      (AddAllowedPrincipals RemoveAllowedPrincipals : Option (List String))
  deriving DecidableEq, Repr

/-- The ec2 service: the describe call answers the allowed principals, the modify call
answers `ReturnValue`. -/
structure Ec2 (σ ε : Type) where
  DescribeVpcEndpointServicePermissions : σ → String → String → σ × Except ε (List String)
  ModifyVpcEndpointServicePermissions :
    σ → String → String → Option (List String) → Option (List String) → σ × Except ε Bool

/-- How a run of `updateVPCEndpointPermissions` ends: `return nil`, `return err`, or a
run-time panic. -/
inductive Ret (ε : Type) where
  | nil
  | err (e : ε)
  | panic
  deriving DecidableEq, Repr

/-- Lines 116-125: the text printed after a successful modify call. -/
def reportPermissions (region vpceid : String) (d : PermDiff) (returnValue : Bool) :
    List String :=
  if returnValue then
    ["INFO : Updated " ++ region ++ "/" ++ vpceid ++ ": "] ++
      (if d.principalsToAdd.length > 0 then ["added " ++ fmtStrings d.principalsToAdd]
       else []) ++
      (if d.principalsToRemove.length > 0 then ["removed " ++ fmtStrings d.principalsToRemove]
       else []) ++
      ["\n"]
  else []

/-- Lines 54-128: the body of the inner loop of `updateVPCEndpointPermissions`, for one
endpoint service. -/
def updateEndpoint {σ ε : Type} (svc : Ec2 σ ε) (config : Config) (region vpceid : String)
    (w : σ) : Outcome σ Ec2Call ε (Ret ε) :=
  match svc.DescribeVpcEndpointServicePermissions w region vpceid with
  | (w1, Except.error err) =>
    { world := w1,
      calls := [(Ec2Call.DescribeVpcEndpointServicePermissions region vpceid, some err)],
      out := [], ret := Ret.err err }
  | (w1, Except.ok allowedPrincipals) =>
    let described : List (Ec2Call × Option ε) :=
      [(Ec2Call.DescribeVpcEndpointServicePermissions region vpceid, none)]
    match principalsOnEndpoint allowedPrincipals with
    | none => { world := w1, calls := described, out := [], ret := Ret.panic }
    | some onEndpoint =>
      let d := permDiff config.PLAllowedPeers onEndpoint
      if d.changes = true then
        let add := if d.principalsToAdd.length > 0 then some d.principalsToAdd else none
        let remove :=
          if d.principalsToRemove.length > 0 then some d.principalsToRemove else none
        match svc.ModifyVpcEndpointServicePermissions w1 region vpceid add remove with
        | (w2, Except.error err) =>
          { world := w2,
            calls := described ++
              [(Ec2Call.ModifyVpcEndpointServicePermissions region vpceid add remove,
                some err)],
            out := [], ret := Ret.err err }
        | (w2, Except.ok returnValue) =>
          { world := w2,
            calls := described ++
              [(Ec2Call.ModifyVpcEndpointServicePermissions region vpceid add remove, none)],
            out := reportPermissions region vpceid d returnValue, ret := Ret.nil }
      else
        { world := w1, calls := described,
          out := ["INFO : " ++ region ++ "/" ++ vpceid ++ ": No PL permisisons changes\n"],
          ret := Ret.nil }

/-- Lines 53-129: the inner loop, over the endpoint services of one region. -/
def updateEndpointsRegion {σ ε : Type} (svc : Ec2 σ ε) (config : Config) (region : String) :
    List String → σ → Outcome σ Ec2Call ε (Ret ε)
  | [], w => { world := w, calls := [], out := [], ret := Ret.nil }
  | vpceid :: rest, w =>
    let r := updateEndpoint svc config region vpceid w
    match r.ret with
    | Ret.nil =>
      let r2 := updateEndpointsRegion svc config region rest r.world
      { world := r2.world, calls := r.calls ++ r2.calls, out := r.out ++ r2.out,
        ret := r2.ret }
    | _ => r

/-- Function `updateVPCEndpointPermissions` (lines 50-132). `endpoints` lists the entries
of the map in the order the outer range visits them. -/
def updateVPCEndpointPermissions {σ ε : Type} (svc : Ec2 σ ε) (config : Config) :
    List (String × List String) → σ → Outcome σ Ec2Call ε (Ret ε)
  | [], w => { world := w, calls := [], out := [], ret := Ret.nil }
  | (region, vpceids) :: rest, w =>
    let r := updateEndpointsRegion svc config region vpceids w
    match r.ret with
    | Ret.nil =>
      let r2 := updateVPCEndpointPermissions svc config rest r.world
      { world := r2.world, calls := r.calls ++ r2.calls, out := r.out ++ r2.out,
        ret := r2.ret }
    | _ => r

/-- Whether a call on the ec2 service is the modify call. -/
def Ec2Call.isModify : Ec2Call → Bool
  | Ec2Call.DescribeVpcEndpointServicePermissions _ _ => false
  | Ec2Call.ModifyVpcEndpointServicePermissions _ _ _ _ => true

/-- A provider for the examples. Its state is the list of principals allowed on every
endpoint service. Reading the service "vpce-svc-unreadable" fails; every other call
succeeds, the modify call removing and then adding what it is given. -/
def sampleEc2 : Ec2 (List String) String :=
  { DescribeVpcEndpointServicePermissions := fun w _ serviceId =>
      if serviceId = "vpce-svc-unreadable" then (w, Except.error "AccessDenied")
      else (w, Except.ok w),
    ModifyVpcEndpointServicePermissions := fun w _ _ add remove =>
      (w.filter (fun p => !contains (remove.getD []) p) ++ add.getD [], Except.ok true) }

/-! ## The wording of the claims about principals -/

/-- A bare account number: 12 decimal digits. -/
def isAccountNumber (p : String) : Bool :=
  decide (p.length = 12) && p.data.all Char.isDigit

/-- A root-account ARN: the text "arn:aws:iam::" + a + ":root" for the account number `a`
found after the first 13 characters. -/
def isRootAccountArn (p : String) : Bool :=
  isAccountNumber (String.mk ((p.data.drop 13).take 12)) &&
    decide (p = rootArn (String.mk ((p.data.drop 13).take 12)))

/-- The removals as the specification words them: one entry for each observed account
number that is not desired, that entry being the root-account ARN of the account. -/
def removalsAsSpecified (D N : List String) : List String :=
  (N.filter (fun a => decide (a ∉ D))).map rootArn

end Pipefitter

namespace Pipefitter

/-! ## Set algebra -/

theorem contains_iff (s : List String) (e : String) : contains s e = true ↔ e ∈ s := by
  induction s with
  | nil => simp [contains]
  | cons a rest ih =>
    by_cases h : a = e
    · simp [contains, h]
    · have h2 : ¬ e = a := fun h3 => h h3.symm
      simp [contains, h, h2, ih]

theorem contains_eq_false_iff (s : List String) (e : String) :
    contains s e = false ↔ e ∉ s := by
  rw [← contains_iff]; simp

theorem foldl_diffStep (config : Config) (other xs : List String) (acc : TargetAcc) :
    xs.foldl (diffStep config other) acc =
      { targets := acc.targets ++
          (xs.filter (fun x => !contains other x)).map (describeTarget config),
        ips := acc.ips ++ xs.filter (fun x => !contains other x) } := by
  induction xs generalizing acc with
  | nil => simp
  | cons x rest ih =>
    rw [List.foldl_cons, ih]
    by_cases h : contains other x = true
    · simp [diffStep, h]
    · simp [diffStep, h, describeTarget]

theorem regNew_eq (config : Config) (D O : List String) :
    regNew config D O =
      { targets := (D.filter (fun x => !contains O x)).map (describeTarget config),
        ips := D.filter (fun x => !contains O x) } := by
  simp [regNew, foldl_diffStep]

theorem deregOld_eq (config : Config) (D O : List String) :
    deregOld config D O =
      { targets := (O.filter (fun x => !contains D x)).map (describeTarget config),
        ips := O.filter (fun x => !contains D x) } := by
  simp [deregOld, foldl_diffStep]

theorem mem_regNew_ips (config : Config) (D O : List String) (x : String) :
    x ∈ (regNew config D O).ips ↔ x ∈ D ∧ x ∉ O := by
  simp [regNew_eq, List.mem_filter, contains_eq_false_iff]

theorem mem_deregOld_ips (config : Config) (D O : List String) (x : String) :
    x ∈ (deregOld config D O).ips ↔ x ∈ O ∧ x ∉ D := by
  simp [deregOld_eq, List.mem_filter, contains_eq_false_iff]

/-! ## Target groups: the diff -/

/-- C1. In `updateTargets`, for every desired list `D` and observed list `O`, the additions
`regNewTargetIPs` are the members of `D` that are not in `O` (in the order of `D`), the
removals `deregOldTargetIPs` are the members of `O` that are not in `D` (in the order of
`O`), no identifier is in both, and for `D = ["10.0.0.1","10.0.0.2"]`,
`O = ["10.0.0.2","10.0.0.3"]` the additions are `["10.0.0.1"]` and the removals
`["10.0.0.3"]`. -/
theorem updateTargets_diff_correct (config : Config) (D O : List String) :
    (∀ x, x ∈ (regNew config D O).ips ↔ x ∈ D ∧ x ∉ O) ∧
    (∀ x, x ∈ (deregOld config D O).ips ↔ x ∈ O ∧ x ∉ D) ∧
    (regNew config D O).ips = D.filter (fun x => decide (x ∉ O)) ∧
    (deregOld config D O).ips = O.filter (fun x => decide (x ∉ D)) ∧
    (∀ x, ¬ (x ∈ (regNew config D O).ips ∧ x ∈ (deregOld config D O).ips)) ∧
    (regNew config ["10.0.0.1", "10.0.0.2"] ["10.0.0.2", "10.0.0.3"]).ips = ["10.0.0.1"] ∧
    (deregOld config ["10.0.0.1", "10.0.0.2"] ["10.0.0.2", "10.0.0.3"]).ips =
      ["10.0.0.3"] := by
  refine ⟨mem_regNew_ips config D O, mem_deregOld_ips config D O, ?_, ?_, ?_, ?_, ?_⟩
  · rw [regNew_eq]
    apply List.filter_congr
    intro x _
    by_cases h : x ∈ O <;> simp [h, (contains_iff O x).2, (contains_eq_false_iff O x).2]
  · rw [deregOld_eq]
    apply List.filter_congr
    intro x _
    by_cases h : x ∈ D <;> simp [h, (contains_iff D x).2, (contains_eq_false_iff D x).2]
  · intro x h
    have h1 := (mem_regNew_ips config D O x).1 h.1
    have h2 := (mem_deregOld_ips config D O x).1 h.2
    exact h1.2 h2.1
  · rw [regNew_eq]; simp only []; decide
  · rw [deregOld_eq]; simp only []; decide

/-- C3. Applying the mutation computed by `updateTargets` to the observed list, as sets of
identifiers, gives the desired set: `(O ∪ additions) \ removals = D`. -/
theorem updateTargets_converges (config : Config) (D O : List String) :
    (O.toFinset ∪ (regNew config D O).ips.toFinset) \ (deregOld config D O).ips.toFinset =
      D.toFinset := by
  ext x
  simp only [Finset.mem_sdiff, Finset.mem_union, List.mem_toFinset, mem_regNew_ips,
    mem_deregOld_ips]
  by_cases hD : x ∈ D <;> by_cases hO : x ∈ O <;> simp [hD, hO]

theorem regNew_targets (config : Config) (D O : List String) :
    (regNew config D O).targets = (regNew config D O).ips.map (describeTarget config) := by
  simp [regNew_eq]

theorem deregOld_targets (config : Config) (D O : List String) :
    (deregOld config D O).targets = (deregOld config D O).ips.map (describeTarget config) := by
  simp [deregOld_eq]

theorem regNew_length_pos (config : Config) (D O : List String) :
    (regNew config D O).targets.length > 0 ↔ (regNew config D O).ips ≠ [] := by
  rw [regNew_targets, List.length_map, gt_iff_lt, List.length_pos]

theorem deregOld_length_pos (config : Config) (D O : List String) :
    (deregOld config D O).targets.length > 0 ↔ (deregOld config D O).ips ≠ [] := by
  rw [deregOld_targets, List.length_map, gt_iff_lt, List.length_pos]

/-! ## Target groups: the loop body, case by case -/

section TargetGroup

variable {σ ε : Type} (svc : Elbv2 σ ε) (config : Config) (D : List String)
  (region tg : String)

theorem deregisterAndReport_nil (O : List String) (reg : TargetAcc) (changes : Bool) (w : σ)
    (calls : List (Elbv2Call × Option ε)) (h : (deregOld config D O).ips = []) :
    deregisterAndReport svc config D region tg O reg changes w calls =
      { world := w, calls := calls,
        out := reportTargets tg reg (deregOld config D O) changes, ret := none } := by
  have h0 : ¬ (deregOld config D O).targets.length > 0 := by
    rw [deregOld_length_pos]; simp [h]
  simp only [deregisterAndReport, h0, if_false]

theorem deregisterAndReport_ok (O : List String) (reg : TargetAcc) (changes : Bool) (w w2 : σ)
    (calls : List (Elbv2Call × Option ε)) (h : (deregOld config D O).ips ≠ [])
    (hc : svc.DeregisterTargets w region tg (deregOld config D O).targets = (w2, none)) :
    deregisterAndReport svc config D region tg O reg changes w calls =
      { world := w2,
        calls := calls ++
          [(Elbv2Call.DeregisterTargets region tg (deregOld config D O).targets, none)],
        out := reportTargets tg reg (deregOld config D O) true, ret := none } := by
  have h0 : (deregOld config D O).targets.length > 0 := (deregOld_length_pos config D O).2 h
  simp only [deregisterAndReport, h0, if_true, hc]

theorem deregisterAndReport_err (O : List String) (reg : TargetAcc) (changes : Bool)
    (w w2 : σ) (err : ε) (calls : List (Elbv2Call × Option ε))
    (h : (deregOld config D O).ips ≠ [])
    (hc : svc.DeregisterTargets w region tg (deregOld config D O).targets = (w2, some err)) :
    deregisterAndReport svc config D region tg O reg changes w calls =
      { world := w2,
        calls := calls ++
          [(Elbv2Call.DeregisterTargets region tg (deregOld config D O).targets, some err)],
        out := [], ret := some err } := by
  have h0 : (deregOld config D O).targets.length > 0 := (deregOld_length_pos config D O).2 h
  simp only [deregisterAndReport, h0, if_true, hc]

theorem updateTargetGroup_describe_err (w w1 : σ) (err : ε)
    (hd : svc.DescribeTargetHealth w region tg = (w1, Except.error err)) :
    updateTargetGroup svc config D region tg w =
      { world := w1, calls := [(Elbv2Call.DescribeTargetHealth region tg, some err)],
        out := [], ret := some err } := by
  simp only [updateTargetGroup, hd]

theorem updateTargetGroup_no_register (w w1 : σ) (resp : List TargetHealthDescription)
    (hd : svc.DescribeTargetHealth w region tg = (w1, Except.ok resp))
    (h : (regNew config D (resp.map (fun t => t.Target.Id))).ips = []) :
    updateTargetGroup svc config D region tg w =
      deregisterAndReport svc config D region tg (resp.map (fun t => t.Target.Id))
        (regNew config D (resp.map (fun t => t.Target.Id))) false w1
        [(Elbv2Call.DescribeTargetHealth region tg, none)] := by
  have h0 : ¬ (regNew config D (resp.map (fun t => t.Target.Id))).targets.length > 0 := by
    rw [regNew_length_pos]; simp [h]
  simp only [updateTargetGroup, hd, h0, if_false]

theorem updateTargetGroup_register_err (w w1 w2 : σ) (err : ε)
    (resp : List TargetHealthDescription)
    (hd : svc.DescribeTargetHealth w region tg = (w1, Except.ok resp))
    (h : (regNew config D (resp.map (fun t => t.Target.Id))).ips ≠ [])
    (hc : svc.RegisterTargets w1 region tg
      (regNew config D (resp.map (fun t => t.Target.Id))).targets = (w2, some err)) :
    updateTargetGroup svc config D region tg w =
      { world := w2,
        calls := [(Elbv2Call.DescribeTargetHealth region tg, none),
          (Elbv2Call.RegisterTargets region tg
            (regNew config D (resp.map (fun t => t.Target.Id))).targets, some err)],
        out := [], ret := some err } := by
  have h0 : (regNew config D (resp.map (fun t => t.Target.Id))).targets.length > 0 :=
    (regNew_length_pos config D _).2 h
  simp only [updateTargetGroup, hd, h0, if_true, hc, List.singleton_append]

theorem updateTargetGroup_register_ok (w w1 w2 : σ) (resp : List TargetHealthDescription)
    (hd : svc.DescribeTargetHealth w region tg = (w1, Except.ok resp))
    (h : (regNew config D (resp.map (fun t => t.Target.Id))).ips ≠ [])
    (hc : svc.RegisterTargets w1 region tg
      (regNew config D (resp.map (fun t => t.Target.Id))).targets = (w2, none)) :
    updateTargetGroup svc config D region tg w =
      deregisterAndReport svc config D region tg (resp.map (fun t => t.Target.Id))
        (regNew config D (resp.map (fun t => t.Target.Id))) true w2
        [(Elbv2Call.DescribeTargetHealth region tg, none),
          (Elbv2Call.RegisterTargets region tg
            (regNew config D (resp.map (fun t => t.Target.Id))).targets, none)] := by
  have h0 : (regNew config D (resp.map (fun t => t.Target.Id))).targets.length > 0 :=
    (regNew_length_pos config D _).2 h
  simp only [updateTargetGroup, hd, h0, if_true, hc, List.singleton_append]

end TargetGroup

/-! ## Target groups: batching of the writes -/

/-- C7. For every target group that `updateTargets` processes without an API error, the
calls issued for the group are the read, then one `RegisterTargets` call exactly when the
additions are non-empty, carrying all of them, then one `DeregisterTargets` call exactly
when the removals are non-empty, carrying all of them; every target description in either
call has the configured port and the zone "all"; with additions and no removals the only
write call is the register call with every addition. -/
theorem updateTargets_batches_writes {σ ε : Type} (svc : Elbv2 σ ε) (config : Config)
    (D : List String) (region tg : String) (w : σ)
    (h : (updateTargetGroup svc config D region tg w).ret = none) :
    ∃ w1 resp, svc.DescribeTargetHealth w region tg = (w1, Except.ok resp) ∧
      (updateTargetGroup svc config D region tg w).calls =
        [(Elbv2Call.DescribeTargetHealth region tg, none)] ++
        (if (regNew config D (resp.map (fun t => t.Target.Id))).ips = [] then []
         else [(Elbv2Call.RegisterTargets region tg
            ((regNew config D (resp.map (fun t => t.Target.Id))).ips.map
              (fun ip => { AvailabilityZone := "all", Id := ip, Port := config.TargetPort })),
            none)]) ++
        (if (deregOld config D (resp.map (fun t => t.Target.Id))).ips = [] then []
         else [(Elbv2Call.DeregisterTargets region tg
            ((deregOld config D (resp.map (fun t => t.Target.Id))).ips.map
              (fun ip => { AvailabilityZone := "all", Id := ip, Port := config.TargetPort })),
            none)]) ∧
      ((regNew config D (resp.map (fun t => t.Target.Id))).ips ≠ [] →
        (deregOld config D (resp.map (fun t => t.Target.Id))).ips = [] →
        (updateTargetGroup svc config D region tg w).calls.filter (fun c => c.1.isWrite) =
          [(Elbv2Call.RegisterTargets region tg
            ((regNew config D (resp.map (fun t => t.Target.Id))).ips.map
              (fun ip => { AvailabilityZone := "all", Id := ip, Port := config.TargetPort })),
            none)]) := by
  rcases hd : svc.DescribeTargetHealth w region tg with ⟨w1, err | resp⟩
  · rw [updateTargetGroup_describe_err svc config D region tg w w1 err hd] at h
    simp at h
  · refine ⟨w1, resp, rfl, ?_⟩
    have key : (updateTargetGroup svc config D region tg w).calls =
        [(Elbv2Call.DescribeTargetHealth region tg, none)] ++
        (if (regNew config D (resp.map (fun t => t.Target.Id))).ips = [] then []
         else [(Elbv2Call.RegisterTargets region tg
            (regNew config D (resp.map (fun t => t.Target.Id))).targets, none)]) ++
        (if (deregOld config D (resp.map (fun t => t.Target.Id))).ips = [] then []
         else [(Elbv2Call.DeregisterTargets region tg
            (deregOld config D (resp.map (fun t => t.Target.Id))).targets, none)]) := by
      by_cases hr : (regNew config D (resp.map (fun t => t.Target.Id))).ips = []
      · rw [updateTargetGroup_no_register svc config D region tg w w1 resp hd hr] at h ⊢
        by_cases hx : (deregOld config D (resp.map (fun t => t.Target.Id))).ips = []
        · rw [deregisterAndReport_nil svc config D region tg _ _ _ _ _ hx]
          simp [hr, hx]
        · rcases hc : svc.DeregisterTargets w1 region tg
            (deregOld config D (resp.map (fun t => t.Target.Id))).targets with ⟨w3, _ | e⟩
          · rw [deregisterAndReport_ok svc config D region tg _ _ _ _ _ _ hx hc]
            simp [hr, hx]
          · rw [deregisterAndReport_err svc config D region tg _ _ _ _ _ _ _ hx hc] at h
            simp at h
      · rcases hc1 : svc.RegisterTargets w1 region tg
          (regNew config D (resp.map (fun t => t.Target.Id))).targets with ⟨w2, _ | e⟩
        · rw [updateTargetGroup_register_ok svc config D region tg w w1 w2 resp hd hr hc1]
            at h ⊢
          by_cases hx : (deregOld config D (resp.map (fun t => t.Target.Id))).ips = []
          · rw [deregisterAndReport_nil svc config D region tg _ _ _ _ _ hx]
            simp [hr, hx]
          · rcases hc : svc.DeregisterTargets w2 region tg
              (deregOld config D (resp.map (fun t => t.Target.Id))).targets with ⟨w3, _ | e⟩
            · rw [deregisterAndReport_ok svc config D region tg _ _ _ _ _ _ hx hc]
              simp [hr, hx]
            · rw [deregisterAndReport_err svc config D region tg _ _ _ _ _ _ _ hx hc] at h
              simp at h
        · rw [updateTargetGroup_register_err svc config D region tg w w1 w2 e resp hd hr hc1]
            at h
          simp at h
    rw [regNew_targets, deregOld_targets] at key
    refine ⟨key, ?_⟩
    intro hadd hrem
    rw [key]
    simp [hadd, hrem, Elbv2Call.isWrite]
    intro a _
    rfl

/-- Witness of C7: with the hosts 10.0.0.1 and 10.0.0.2 desired and nothing registered, the
only calls are the read and one register call carrying both hosts. -/
theorem updateTargets_batches_writes_witness :
    (updateTargetGroup sampleElbv2 sampleConfig ["10.0.0.1", "10.0.0.2"] "us-east-1" "tg-a"
        []).ret = none ∧
    ∃ w1 resp, sampleElbv2.DescribeTargetHealth [] "us-east-1" "tg-a" = (w1, Except.ok resp) ∧
      (updateTargetGroup sampleElbv2 sampleConfig ["10.0.0.1", "10.0.0.2"] "us-east-1" "tg-a"
        []).calls =
        [(Elbv2Call.DescribeTargetHealth "us-east-1" "tg-a", none),
         (Elbv2Call.RegisterTargets "us-east-1" "tg-a"
            [{ AvailabilityZone := "all", Id := "10.0.0.1", Port := 443 },
             { AvailabilityZone := "all", Id := "10.0.0.2", Port := 443 }], none)] := by
  have h0 : (updateTargetGroup sampleElbv2 sampleConfig ["10.0.0.1", "10.0.0.2"] "us-east-1"
      "tg-a" []).ret = none := by decide
  obtain ⟨w1, resp, hd, hcalls, _⟩ :=
    updateTargets_batches_writes sampleElbv2 sampleConfig ["10.0.0.1", "10.0.0.2"]
      "us-east-1" "tg-a" [] h0
  refine ⟨h0, w1, resp, hd, ?_⟩
  have hresp : resp = [] := by
    have : (([] : List (String × String)),
        (Except.ok [] : Except String (List TargetHealthDescription))) =
        (w1, Except.ok resp) := hd
    simp at this
    exact this.2
  subst hresp
  rw [hcalls]
  decide

/-! ## Target groups: abort on the first error -/

section Abort

variable {σ ε : Type} (svc : Elbv2 σ ε) (config : Config) (D : List String)

theorem replay_append (w : σ) (xs ys : List (Elbv2Call × Option ε)) :
    svc.replay w (xs ++ ys) = svc.replay (svc.replay w xs) ys := by
  simp [Elbv2.replay, List.foldl_append]

theorem replay_nil (w : σ) : svc.replay w [] = w := rfl

theorem replay_singleton (w : σ) (c : Elbv2Call × Option ε) :
    svc.replay w [c] = svc.after w c.1 := rfl

theorem stopsAtFirstError_nil (w : σ) :
    StopsAtFirstError svc w { world := w, calls := [], out := [], ret := none } := by
  refine ⟨Or.inl ⟨rfl, ?_⟩, rfl⟩
  intro c hc
  simp at hc

/-- Sequencing two runs, the second one entered only when the first returned nothing,
keeps the shape. -/
theorem stopsAtFirstError_seq (w : σ) (r r2 : Outcome σ Elbv2Call ε (Option ε))
    (h1 : StopsAtFirstError svc w r) (hret : r.ret = none)
    (h2 : StopsAtFirstError svc r.world r2) :
    StopsAtFirstError svc w
      { world := r2.world, calls := r.calls ++ r2.calls, out := r.out ++ r2.out,
        ret := r2.ret } := by
  obtain ⟨s1, w1⟩ := h1
  obtain ⟨s2, w2⟩ := h2
  have ok1 : ∀ c ∈ r.calls, c.2 = none := by
    rcases s1 with ⟨_, h⟩ | ⟨e, pre, call, he, _, _⟩
    · exact h
    · rw [hret] at he; simp at he
  refine ⟨?_, ?_⟩
  · rcases s2 with ⟨hn, hall⟩ | ⟨e, pre, call, he, hcalls, hpre⟩
    · left
      refine ⟨hn, ?_⟩
      intro c hc
      rcases List.mem_append.1 hc with h | h
      · exact ok1 c h
      · exact hall c h
    · right
      refine ⟨e, r.calls ++ pre, call, he, ?_, ?_⟩
      · show r.calls ++ r2.calls = r.calls ++ pre ++ [(call, some e)]
        rw [hcalls, List.append_assoc]
      · intro c hc
        rcases List.mem_append.1 hc with h | h
        · exact ok1 c h
        · exact hpre c h
  · show r2.world = svc.replay w (r.calls ++ r2.calls)
    rw [replay_append, ← w1, w2]

theorem deregisterAndReport_stops (region tg : String) (O : List String) (reg : TargetAcc)
    (changes : Bool) (w0 w : σ) (calls : List (Elbv2Call × Option ε))
    (hcalls : ∀ c ∈ calls, c.2 = none) (hw : w = svc.replay w0 calls) :
    StopsAtFirstError svc w0
      (deregisterAndReport svc config D region tg O reg changes w calls) := by
  by_cases hx : (deregOld config D O).ips = []
  · rw [deregisterAndReport_nil svc config D region tg _ _ _ _ _ hx]
    exact ⟨Or.inl ⟨rfl, hcalls⟩, hw⟩
  · rcases hc : svc.DeregisterTargets w region tg (deregOld config D O).targets
      with ⟨w3, _ | e⟩
    · rw [deregisterAndReport_ok svc config D region tg _ _ _ _ _ _ hx hc]
      refine ⟨Or.inl ⟨rfl, ?_⟩, ?_⟩
      · intro c hmem
        rcases List.mem_append.1 hmem with h | h
        · exact hcalls c h
        · simp at h; rw [h]
      · show w3 = svc.replay w0 (calls ++ _)
        rw [replay_append, ← hw, replay_singleton]
        simp [Elbv2.after, hc]
    · rw [deregisterAndReport_err svc config D region tg _ _ _ _ _ _ _ hx hc]
      refine ⟨Or.inr ⟨e, calls, _, rfl, rfl, hcalls⟩, ?_⟩
      show w3 = svc.replay w0 (calls ++ _)
      rw [replay_append, ← hw, replay_singleton]
      simp [Elbv2.after, hc]

theorem updateTargetGroup_stops (region tg : String) (w : σ) :
    StopsAtFirstError svc w (updateTargetGroup svc config D region tg w) := by
  rcases hd : svc.DescribeTargetHealth w region tg with ⟨w1, err | resp⟩
  · rw [updateTargetGroup_describe_err svc config D region tg w w1 err hd]
    refine ⟨Or.inr ⟨err, [], _, rfl, rfl, ?_⟩, ?_⟩
    · intro c hc; simp at hc
    · show w1 = svc.replay w [_]
      rw [replay_singleton]; simp [Elbv2.after, hd]
  · have hw1 : w1 = svc.replay w [(Elbv2Call.DescribeTargetHealth region tg, none)] := by
      rw [replay_singleton]; simp [Elbv2.after, hd]
    by_cases hr : (regNew config D (resp.map (fun t => t.Target.Id))).ips = []
    · rw [updateTargetGroup_no_register svc config D region tg w w1 resp hd hr]
      apply deregisterAndReport_stops
      · intro c hc; simp at hc; rw [hc]
      · exact hw1
    · rcases hc1 : svc.RegisterTargets w1 region tg
        (regNew config D (resp.map (fun t => t.Target.Id))).targets with ⟨w2, _ | e⟩
      · rw [updateTargetGroup_register_ok svc config D region tg w w1 w2 resp hd hr hc1]
        apply deregisterAndReport_stops
        · intro c hc
          simp at hc
          rcases hc with h | h <;> rw [h]
        · show w2 = svc.replay w ([_] ++ [_])
          rw [replay_append, ← hw1, replay_singleton]
          simp [Elbv2.after, hc1]
      · rw [updateTargetGroup_register_err svc config D region tg w w1 w2 e resp hd hr hc1]
        refine ⟨Or.inr ⟨e, [(Elbv2Call.DescribeTargetHealth region tg, none)], _, rfl, rfl,
          ?_⟩, ?_⟩
        · intro c hc; simp at hc; rw [hc]
        · show w2 = svc.replay w ([_] ++ [_])
          rw [replay_append, ← hw1, replay_singleton]
          simp [Elbv2.after, hc1]

theorem updateTargetsRegion_stops (region : String) (tgs : List String) (w : σ) :
    StopsAtFirstError svc w (updateTargetsRegion svc config D region tgs w) := by
  induction tgs generalizing w with
  | nil => exact stopsAtFirstError_nil svc w
  | cons tg rest ih =>
    have h1 := updateTargetGroup_stops svc config D region tg w
    unfold updateTargetsRegion
    rcases hret : (updateTargetGroup svc config D region tg w).ret with _ | e
    · simp only [hret]
      exact stopsAtFirstError_seq svc w _ _ h1 hret (ih _)
    · simp only [hret]
      have : ({ updateTargetGroup svc config D region tg w with ret := some e } :
          Outcome σ Elbv2Call ε (Option ε)) = updateTargetGroup svc config D region tg w := by
        rw [← hret]
      rw [this]
      exact h1

theorem updateTargets_stops (groups : List (String × List String)) (w : σ) :
    StopsAtFirstError svc w (updateTargets svc config D groups w) := by
  induction groups generalizing w with
  | nil => exact stopsAtFirstError_nil svc w
  | cons g rest ih =>
    obtain ⟨region, tgs⟩ := g
    have h1 := updateTargetsRegion_stops svc config D region tgs w
    unfold updateTargets
    rcases hret : (updateTargetsRegion svc config D region tgs w).ret with _ | e
    · simp only [hret]
      exact stopsAtFirstError_seq svc w _ _ h1 hret (ih _)
    · simp only [hret]
      have : ({ updateTargetsRegion svc config D region tgs w with ret := some e } :
          Outcome σ Elbv2Call ε (Option ε)) = updateTargetsRegion svc config D region tgs w := by
        rw [← hret]
      rw [this]
      exact h1

end Abort

theorem updateTargets_cons_ok {σ ε : Type} (svc : Elbv2 σ ε) (config : Config)
    (D : List String) (region : String) (tgs : List String)
    (rest : List (String × List String)) (w : σ)
    (h : (updateTargetsRegion svc config D region tgs w).ret = none) :
    updateTargets svc config D ((region, tgs) :: rest) w =
      { world := (updateTargets svc config D rest
          (updateTargetsRegion svc config D region tgs w).world).world,
        calls := (updateTargetsRegion svc config D region tgs w).calls ++
          (updateTargets svc config D rest
            (updateTargetsRegion svc config D region tgs w).world).calls,
        out := (updateTargetsRegion svc config D region tgs w).out ++
          (updateTargets svc config D rest
            (updateTargetsRegion svc config D region tgs w).world).out,
        ret := (updateTargets svc config D rest
          (updateTargetsRegion svc config D region tgs w).world).ret } := by
  rw [updateTargets]
  simp only [h]

theorem updateTargets_cons_err {σ ε : Type} (svc : Elbv2 σ ε) (config : Config)
    (D : List String) (region : String) (tgs : List String)
    (rest : List (String × List String)) (w : σ) (e : ε)
    (h : (updateTargetsRegion svc config D region tgs w).ret = some e) :
    updateTargets svc config D ((region, tgs) :: rest) w =
      updateTargetsRegion svc config D region tgs w := by
  rw [updateTargets]
  simp only [h]
  rw [← h]

theorem updateTargets_append {σ ε : Type} (svc : Elbv2 σ ε) (config : Config)
    (D : List String) (pre post : List (String × List String)) (w : σ)
    (h : (updateTargets svc config D pre w).ret = none) :
    updateTargets svc config D (pre ++ post) w =
      { world := (updateTargets svc config D post (updateTargets svc config D pre w).world).world,
        calls := (updateTargets svc config D pre w).calls ++
          (updateTargets svc config D post (updateTargets svc config D pre w).world).calls,
        out := (updateTargets svc config D pre w).out ++
          (updateTargets svc config D post (updateTargets svc config D pre w).world).out,
        ret := (updateTargets svc config D post (updateTargets svc config D pre w).world).ret } := by
  induction pre generalizing w with
  | nil => simp [updateTargets]
  | cons g rest ih =>
    obtain ⟨region, tgs⟩ := g
    rw [List.cons_append]
    rcases hret : (updateTargetsRegion svc config D region tgs w).ret with _ | e
    · rw [updateTargets_cons_ok svc config D region tgs rest w hret] at h
      rw [updateTargets_cons_ok svc config D region tgs (rest ++ post) w hret,
        updateTargets_cons_ok svc config D region tgs rest w hret, ih _ h]
      simp [List.append_assoc]
    · rw [updateTargets_cons_err svc config D region tgs rest w e hret, hret] at h
      simp at h

/-- C9. For every sequence of target groups and every behaviour of the provider:
`updateTargets` returns no error exactly when no issued call failed; when it returns an
error, that error is the error of the last call issued and no earlier call failed, so no
call follows the failing one; the provider state at the end is the state reached by the
issued calls and nothing else; and the calls made for the groups processed before the
failing one are all kept in front of it. -/
theorem updateTargets_aborts_on_first_error {σ ε : Type} (svc : Elbv2 σ ε)
    (config : Config) (D : List String) (groups : List (String × List String)) (w : σ) :
    ((updateTargets svc config D groups w).ret = none ↔
      ∀ c ∈ (updateTargets svc config D groups w).calls, c.2 = none) ∧
    (∀ e, (updateTargets svc config D groups w).ret = some e →
      ∃ pre call, (updateTargets svc config D groups w).calls = pre ++ [(call, some e)] ∧
        ∀ c ∈ pre, c.2 = none) ∧
    (updateTargets svc config D groups w).world =
      svc.replay w (updateTargets svc config D groups w).calls ∧
    (∀ done todo, groups = done ++ todo →
      (updateTargets svc config D done w).ret = none →
      (updateTargets svc config D groups w).calls =
        (updateTargets svc config D done w).calls ++
          (updateTargets svc config D todo (updateTargets svc config D done w).world).calls ∧
      (updateTargets svc config D groups w).ret =
        (updateTargets svc config D todo (updateTargets svc config D done w).world).ret) := by
  obtain ⟨shape, hworld⟩ := updateTargets_stops svc config D groups w
  refine ⟨?_, ?_, hworld, ?_⟩
  · constructor
    · intro hn
      rcases shape with ⟨_, hall⟩ | ⟨e, pre, call, he, _, _⟩
      · exact hall
      · rw [hn] at he; simp at he
    · intro hall
      rcases shape with ⟨hn, _⟩ | ⟨e, pre, call, he, hcalls, _⟩
      · exact hn
      · have := hall (call, some e) (by rw [hcalls]; simp)
        simp at this
  · intro e he
    rcases shape with ⟨hn, _⟩ | ⟨e2, pre, call, he2, hcalls, hpre⟩
    · rw [hn] at he; simp at he
    · rw [he2] at he
      simp at he
      subst he
      exact ⟨pre, call, hcalls, hpre⟩
  · intro done todo hg hdone
    subst hg
    rw [updateTargets_append svc config D done todo w hdone]
    exact ⟨rfl, rfl⟩

/-- Witness of C9: the group tg-a is updated, then registering in tg-readonly fails. The
error returned is that of the register call, which is the last call; tg-b is never read;
the registration made in tg-a is still in the provider state. -/
theorem updateTargets_aborts_on_first_error_witness :
    (updateTargets sampleElbv2 sampleConfig ["10.0.0.1"]
      [("us-east-1", ["tg-a"]), ("eu-west-1", ["tg-readonly", "tg-b"])] []).ret =
      some "Throttled" ∧
    (updateTargets sampleElbv2 sampleConfig ["10.0.0.1"]
      [("us-east-1", ["tg-a"]), ("eu-west-1", ["tg-readonly", "tg-b"])] []).world =
      [("tg-a", "10.0.0.1")] ∧
    (∃ pre call, (updateTargets sampleElbv2 sampleConfig ["10.0.0.1"]
      [("us-east-1", ["tg-a"]), ("eu-west-1", ["tg-readonly", "tg-b"])] []).calls =
        pre ++ [(call, some "Throttled")] ∧ ∀ c ∈ pre, c.2 = none) ∧
    (updateTargets sampleElbv2 sampleConfig ["10.0.0.1"]
      [("us-east-1", ["tg-a"]), ("eu-west-1", ["tg-readonly", "tg-b"])] []).calls =
      (updateTargets sampleElbv2 sampleConfig ["10.0.0.1"] [("us-east-1", ["tg-a"])] []).calls ++
        (updateTargets sampleElbv2 sampleConfig ["10.0.0.1"]
          [("eu-west-1", ["tg-readonly", "tg-b"])]
          (updateTargets sampleElbv2 sampleConfig ["10.0.0.1"] [("us-east-1", ["tg-a"])]
            []).world).calls := by
  have h := updateTargets_aborts_on_first_error sampleElbv2 sampleConfig ["10.0.0.1"]
    [("us-east-1", ["tg-a"]), ("eu-west-1", ["tg-readonly", "tg-b"])] []
  have hret : (updateTargets sampleElbv2 sampleConfig ["10.0.0.1"]
      [("us-east-1", ["tg-a"]), ("eu-west-1", ["tg-readonly", "tg-b"])] []).ret =
      some "Throttled" := by decide
  refine ⟨hret, by decide, h.2.1 "Throttled" hret, ?_⟩
  exact (h.2.2.2 [("us-east-1", ["tg-a"])] [("eu-west-1", ["tg-readonly", "tg-b"])] rfl
    (by decide)).1

/-! ## Endpoint services: the diff -/

theorem foldl_addStep (N xs : List String) (d : PermDiff) :
    xs.foldl (addStep N) d =
      { principalsToAdd := d.principalsToAdd ++
          (xs.filter (fun a => !contains N a)).map rootArn,
        principalsToRemove := d.principalsToRemove,
        changes := d.changes || !(xs.filter (fun a => !contains N a)).isEmpty } := by
  induction xs generalizing d with
  | nil => simp
  | cons x rest ih =>
    rw [List.foldl_cons, ih]
    by_cases h : contains N x = true
    · simp [addStep, h]
    · simp [addStep, h]

theorem foldl_removeStep (D xs : List String) (d : PermDiff) :
    xs.foldl (removeStep D) d =
      { principalsToAdd := d.principalsToAdd,
        principalsToRemove := d.principalsToRemove ++
          (xs.filter (fun a => !contains D a)).map
            (fun a => if a.utf8ByteSize = 12 then rootArn a else a),
        changes := d.changes || !(xs.filter (fun a => !contains D a)).isEmpty } := by
  induction xs generalizing d with
  | nil => simp
  | cons x rest ih =>
    rw [List.foldl_cons, ih]
    by_cases h : contains D x = true
    · simp [removeStep, h]
    · by_cases h12 : x.utf8ByteSize = 12
      · simp [removeStep, h, h12]
      · simp [removeStep, h, h12]

theorem permDiff_eq (D N : List String) :
    permDiff D N =
      { principalsToAdd := (D.filter (fun a => !contains N a)).map rootArn,
        principalsToRemove := (N.filter (fun a => !contains D a)).map
          (fun a => if a.utf8ByteSize = 12 then rootArn a else a),
        changes := !(D.filter (fun a => !contains N a)).isEmpty ||
          !(N.filter (fun a => !contains D a)).isEmpty } := by
  simp [permDiff, foldl_addStep, foldl_removeStep]

/-- The flag `changes` is set exactly when one of the two lists is non-empty. -/
theorem permDiff_changes (D N : List String) :
    (permDiff D N).changes = true ↔
      (permDiff D N).principalsToAdd ≠ [] ∨ (permDiff D N).principalsToRemove ≠ [] := by
  rw [permDiff_eq]
  simp [List.isEmpty_iff]

theorem principalsOnEndpointFrom_eq (acc O N : List String)
    (h : principalsOnEndpointFrom acc O = some N) :
    ∃ M, N = acc ++ M ∧ O.map normalise = M.map some := by
  induction O generalizing acc with
  | nil =>
    simp [principalsOnEndpointFrom] at h
    exact ⟨[], by simp [h], rfl⟩
  | cons p rest ih =>
    rw [principalsOnEndpointFrom] at h
    rcases hn : normalise p with _ | a
    · simp [hn] at h
    · simp only [hn] at h
      obtain ⟨M, hM, hmap⟩ := ih _ h
      exact ⟨a :: M, by simp [hM], by simp [hn, hmap]⟩

theorem principalsOnEndpointFrom_of_map (acc O M : List String)
    (h : O.map normalise = M.map some) :
    principalsOnEndpointFrom acc O = some (acc ++ M) := by
  induction O generalizing acc M with
  | nil =>
    cases M with
    | nil => simp [principalsOnEndpointFrom]
    | cons _ _ => simp at h
  | cons p rest ih =>
    cases M with
    | nil => simp at h
    | cons a M =>
      simp only [List.map_cons, List.cons.injEq] at h
      rw [principalsOnEndpointFrom]
      simp only [h.1]
      rw [ih _ _ h.2]
      simp

/-- The read loop succeeds with `N` exactly when `N` lists, in order, the normalised form
of each observed principal. -/
theorem principalsOnEndpoint_eq_some_iff (O N : List String) :
    principalsOnEndpoint O = some N ↔ O.map normalise = N.map some := by
  constructor
  · intro h
    obtain ⟨M, hM, hmap⟩ := principalsOnEndpointFrom_eq [] O N h
    simp at hM
    rw [hM]; exact hmap
  · intro h
    have := principalsOnEndpointFrom_of_map [] O N h
    simpa [principalsOnEndpoint] using this

/-! ## Normalisation of principals -/

theorem containsChars_of_infix (sub xs ys : List Char) :
    containsChars sub (xs ++ sub ++ ys) = true := by
  induction xs with
  | nil =>
    have hp : sub.isPrefixOf (sub ++ ys) = true := by
      rw [List.isPrefixOf_iff_prefix]; exact List.prefix_append sub ys
    rw [List.nil_append]
    cases hl : sub ++ ys with
    | nil => rw [hl] at hp; simpa [containsChars] using hp
    | cons c cs => rw [hl] at hp; simp [containsChars, hp]
  | cons x xs ih =>
    show (sub.isPrefixOf (x :: (xs ++ sub ++ ys)) || containsChars sub (xs ++ sub ++ ys)) = true
    rw [ih, Bool.or_true]

theorem splitChars_colon_last (cur xs : List Char) (h : ':' ∉ xs) :
    splitChars [':'] 0 cur xs = [cur ++ xs] := by
  induction xs generalizing cur with
  | nil => simp [splitChars]
  | cons c cs ih =>
    have hc : ¬ (':' = c) := fun e => h (by rw [e]; exact List.mem_cons_self _ _)
    have hcs : ':' ∉ cs := fun e => h (List.mem_cons_of_mem _ e)
    simp [splitChars, List.isPrefixOf, hc, ih _ hcs]

theorem splitChars_colon_field (cur xs rest : List Char) (h : ':' ∉ xs) :
    splitChars [':'] 0 cur (xs ++ ':' :: rest) = (cur ++ xs) :: splitChars [':'] 0 [] rest := by
  induction xs generalizing cur with
  | nil => simp [splitChars, List.isPrefixOf]
  | cons c cs ih =>
    have hc : ¬ (':' = c) := fun e => h (by rw [e]; exact List.mem_cons_self _ _)
    have hcs : ':' ∉ cs := fun e => h (List.mem_cons_of_mem _ e)
    simp [splitChars, List.isPrefixOf, hc, ih _ hcs]

theorem rootArn_data (a : String) :
    (rootArn a).data =
      ['a', 'r', 'n'] ++ ':' :: (['a', 'w', 's'] ++ ':' :: (['i', 'a', 'm'] ++ ':' ::
        ([] ++ ':' :: (a.data ++ ':' :: ['r', 'o', 'o', 't'])))) := by
  simp [rootArn, String.data_append]

theorem stringsContains_rootArn (a : String) : stringsContains (rootArn a) ":root" = true := by
  have h := containsChars_of_infix [':', 'r', 'o', 'o', 't']
    ("arn:aws:iam::".data ++ a.data) []
  simpa [stringsContains, rootArn, String.data_append] using h

theorem stringsSplit_rootArn (a : String) (h : ':' ∉ a.data) :
    stringsSplit (rootArn a) ":" = ["arn", "aws", "iam", "", a, "root"] := by
  have hsep : ":".data = [':'] := rfl
  have hne : ¬ ([':'] = ([] : List Char)) := by simp
  unfold stringsSplit
  rw [hsep, if_neg hne, rootArn_data,
    splitChars_colon_field _ _ _ (by decide), splitChars_colon_field _ _ _ (by decide),
    splitChars_colon_field _ _ _ (by decide), splitChars_colon_field _ _ _ (by decide),
    splitChars_colon_field _ _ _ h, splitChars_colon_last _ _ (by decide)]
  rfl

theorem normalise_rootArn (a : String) (h : ':' ∉ a.data) : normalise (rootArn a) = some a := by
  simp [normalise, stringsContains_rootArn, stringsSplit_rootArn a h]

/-- C5. For every account number `a` of 12 decimal digits, wrapping it as the reconciler
does for additions, "arn:aws:iam::" + a + ":root", and extracting the account number as
the reconciler does for observed principals (the text contains ":root", field 4 of the
split on ":") gives `a` again. -/
theorem normalise_roundtrip (a : String) (hlen : a.length = 12)
    (hdigits : ∀ c ∈ a.data, c.isDigit = true) :
    rootArn a = "arn:aws:iam::" ++ a ++ ":root" ∧
    stringsContains (rootArn a) ":root" = true ∧
    (stringsSplit (rootArn a) ":")[4]? = some a ∧
    normalise (rootArn a) = some a := by
  have _ := hlen
  have h : ':' ∉ a.data := by
    intro hmem
    have := hdigits ':' hmem
    revert this
    decide
  refine ⟨rfl, stringsContains_rootArn a, ?_, normalise_rootArn a h⟩
  rw [stringsSplit_rootArn a h]
  rfl

/-- Witness of C5 at the account number 123456789012. -/
theorem normalise_roundtrip_witness :
    rootArn "123456789012" = "arn:aws:iam::123456789012:root" ∧
    normalise "arn:aws:iam::123456789012:root" = some "123456789012" := by
  have h := normalise_roundtrip "123456789012" (by decide) (by decide)
  exact ⟨by decide, h.2.2.2⟩

/-! ## Endpoint services: the loop body, case by case -/

section Endpoint

variable {σ ε : Type} (svc : Ec2 σ ε) (config : Config) (region vpceid : String)

theorem updateEndpoint_describe_err (w w1 : σ) (err : ε)
    (hd : svc.DescribeVpcEndpointServicePermissions w region vpceid = (w1, Except.error err)) :
    updateEndpoint svc config region vpceid w =
      { world := w1,
        calls := [(Ec2Call.DescribeVpcEndpointServicePermissions region vpceid, some err)],
        out := [], ret := Ret.err err } := by
  simp only [updateEndpoint, hd]

theorem updateEndpoint_panic (w w1 : σ) (O : List String)
    (hd : svc.DescribeVpcEndpointServicePermissions w region vpceid = (w1, Except.ok O))
    (hN : principalsOnEndpoint O = none) :
    updateEndpoint svc config region vpceid w =
      { world := w1,
        calls := [(Ec2Call.DescribeVpcEndpointServicePermissions region vpceid, none)],
        out := [], ret := Ret.panic } := by
  simp only [updateEndpoint, hd, hN]

theorem updateEndpoint_no_changes (w w1 : σ) (O N : List String)
    (hd : svc.DescribeVpcEndpointServicePermissions w region vpceid = (w1, Except.ok O))
    (hN : principalsOnEndpoint O = some N)
    (hc : (permDiff config.PLAllowedPeers N).changes = false) :
    updateEndpoint svc config region vpceid w =
      { world := w1,
        calls := [(Ec2Call.DescribeVpcEndpointServicePermissions region vpceid, none)],
        out := ["INFO : " ++ region ++ "/" ++ vpceid ++ ": No PL permisisons changes\n"],
        ret := Ret.nil } := by
  simp [updateEndpoint, hd, hN, hc]

theorem updateEndpoint_modify_err (w w1 w2 : σ) (O N : List String) (err : ε)
    (hd : svc.DescribeVpcEndpointServicePermissions w region vpceid = (w1, Except.ok O))
    (hN : principalsOnEndpoint O = some N)
    (hc : (permDiff config.PLAllowedPeers N).changes = true)
    (hm : svc.ModifyVpcEndpointServicePermissions w1 region vpceid
      (if (permDiff config.PLAllowedPeers N).principalsToAdd.length > 0
        then some (permDiff config.PLAllowedPeers N).principalsToAdd else none)
      (if (permDiff config.PLAllowedPeers N).principalsToRemove.length > 0
        then some (permDiff config.PLAllowedPeers N).principalsToRemove else none) =
      (w2, Except.error err)) :
    updateEndpoint svc config region vpceid w =
      { world := w2,
        calls := [(Ec2Call.DescribeVpcEndpointServicePermissions region vpceid, none),
          (Ec2Call.ModifyVpcEndpointServicePermissions region vpceid
            (if (permDiff config.PLAllowedPeers N).principalsToAdd.length > 0
              then some (permDiff config.PLAllowedPeers N).principalsToAdd else none)
            (if (permDiff config.PLAllowedPeers N).principalsToRemove.length > 0
              then some (permDiff config.PLAllowedPeers N).principalsToRemove else none),
            some err)],
        out := [], ret := Ret.err err } := by
  simp only [updateEndpoint, hd, hN, hc, if_true, hm, List.singleton_append]

theorem updateEndpoint_modify_ok (w w1 w2 : σ) (O N : List String) (returnValue : Bool)
    (hd : svc.DescribeVpcEndpointServicePermissions w region vpceid = (w1, Except.ok O))
    (hN : principalsOnEndpoint O = some N)
    (hc : (permDiff config.PLAllowedPeers N).changes = true)
    (hm : svc.ModifyVpcEndpointServicePermissions w1 region vpceid
      (if (permDiff config.PLAllowedPeers N).principalsToAdd.length > 0
        then some (permDiff config.PLAllowedPeers N).principalsToAdd else none)
      (if (permDiff config.PLAllowedPeers N).principalsToRemove.length > 0
        then some (permDiff config.PLAllowedPeers N).principalsToRemove else none) =
      (w2, Except.ok returnValue)) :
    updateEndpoint svc config region vpceid w =
      { world := w2,
        calls := [(Ec2Call.DescribeVpcEndpointServicePermissions region vpceid, none),
          (Ec2Call.ModifyVpcEndpointServicePermissions region vpceid
            (if (permDiff config.PLAllowedPeers N).principalsToAdd.length > 0
              then some (permDiff config.PLAllowedPeers N).principalsToAdd else none)
            (if (permDiff config.PLAllowedPeers N).principalsToRemove.length > 0
              then some (permDiff config.PLAllowedPeers N).principalsToRemove else none),
            none)],
        out := reportPermissions region vpceid (permDiff config.PLAllowedPeers N) returnValue,
        ret := Ret.nil } := by
  simp only [updateEndpoint, hd, hN, hc, if_true, hm, List.singleton_append]

end Endpoint

/-! ## Endpoint services: one combined modify call -/

theorem some_if_length_pos (l : List String) :
    (if l.length > 0 then some l else none) = (if l = [] then none else some l) := by
  cases l <;> simp

theorem updateEndpoint_calls_of_diff {σ ε : Type} (svc : Ec2 σ ε) (config : Config)
    (region vpceid : String) (w w1 : σ) (O N : List String)
    (hd : svc.DescribeVpcEndpointServicePermissions w region vpceid = (w1, Except.ok O))
    (hN : principalsOnEndpoint O = some N) :
    ((permDiff config.PLAllowedPeers N).principalsToAdd = [] ∧
        (permDiff config.PLAllowedPeers N).principalsToRemove = [] →
      (updateEndpoint svc config region vpceid w).calls =
        [(Ec2Call.DescribeVpcEndpointServicePermissions region vpceid, none)]) ∧
    (¬ ((permDiff config.PLAllowedPeers N).principalsToAdd = [] ∧
        (permDiff config.PLAllowedPeers N).principalsToRemove = []) →
      ∃ outcome, (updateEndpoint svc config region vpceid w).calls =
        [(Ec2Call.DescribeVpcEndpointServicePermissions region vpceid, none),
         (Ec2Call.ModifyVpcEndpointServicePermissions region vpceid
            (if (permDiff config.PLAllowedPeers N).principalsToAdd = [] then none
              else some (permDiff config.PLAllowedPeers N).principalsToAdd)
            (if (permDiff config.PLAllowedPeers N).principalsToRemove = [] then none
              else some (permDiff config.PLAllowedPeers N).principalsToRemove),
            outcome)]) := by
  constructor
  · intro hempty
    have hc : (permDiff config.PLAllowedPeers N).changes = false := by
      rw [← Bool.not_eq_true, permDiff_changes]
      simp [hempty.1, hempty.2]
    rw [updateEndpoint_no_changes svc config region vpceid w w1 O N hd hN hc]
  · intro hne
    have hc : (permDiff config.PLAllowedPeers N).changes = true := by
      rw [permDiff_changes]
      by_cases ha : (permDiff config.PLAllowedPeers N).principalsToAdd = []
      · right; intro hr; exact hne ⟨ha, hr⟩
      · left; exact ha
    rcases hm : svc.ModifyVpcEndpointServicePermissions w1 region vpceid
      (if (permDiff config.PLAllowedPeers N).principalsToAdd.length > 0
        then some (permDiff config.PLAllowedPeers N).principalsToAdd else none)
      (if (permDiff config.PLAllowedPeers N).principalsToRemove.length > 0
        then some (permDiff config.PLAllowedPeers N).principalsToRemove else none)
      with ⟨w2, err | returnValue⟩
    · refine ⟨some err, ?_⟩
      rw [updateEndpoint_modify_err svc config region vpceid w w1 w2 O N err hd hN hc hm]
      simp only [some_if_length_pos]
    · refine ⟨none, ?_⟩
      rw [updateEndpoint_modify_ok svc config region vpceid w w1 w2 O N returnValue hd hN hc
        hm]
      simp only [some_if_length_pos]

/-- C8. For every endpoint service processed by `updateVPCEndpointPermissions`, at most one
modify call is issued. Once the principals are read and normalised, no modify call is
issued when additions and removals are both empty; otherwise exactly one is issued, right
after the read, with the whole additions list as `AddAllowedPrincipals` and the whole
removals list as `RemoveAllowedPrincipals`, an empty list being left unset. When the read
fails, or the normalisation does, no diff is computed and no modify call is issued. -/
theorem updateEndpoint_single_modify {σ ε : Type} (svc : Ec2 σ ε) (config : Config)
    (region vpceid : String) (w : σ) :
    ((updateEndpoint svc config region vpceid w).calls.filter
      (fun c => c.1.isModify)).length ≤ 1 ∧
    (∀ w1 O N,
      svc.DescribeVpcEndpointServicePermissions w region vpceid = (w1, Except.ok O) →
      principalsOnEndpoint O = some N →
      ((permDiff config.PLAllowedPeers N).principalsToAdd = [] ∧
          (permDiff config.PLAllowedPeers N).principalsToRemove = [] →
        (updateEndpoint svc config region vpceid w).calls =
          [(Ec2Call.DescribeVpcEndpointServicePermissions region vpceid, none)]) ∧
      (¬ ((permDiff config.PLAllowedPeers N).principalsToAdd = [] ∧
          (permDiff config.PLAllowedPeers N).principalsToRemove = []) →
        ∃ outcome, (updateEndpoint svc config region vpceid w).calls =
          [(Ec2Call.DescribeVpcEndpointServicePermissions region vpceid, none),
           (Ec2Call.ModifyVpcEndpointServicePermissions region vpceid
              (if (permDiff config.PLAllowedPeers N).principalsToAdd = [] then none
                else some (permDiff config.PLAllowedPeers N).principalsToAdd)
              (if (permDiff config.PLAllowedPeers N).principalsToRemove = [] then none
                else some (permDiff config.PLAllowedPeers N).principalsToRemove),
              outcome)])) ∧
    (∀ w1 err,
      svc.DescribeVpcEndpointServicePermissions w region vpceid = (w1, Except.error err) →
      (updateEndpoint svc config region vpceid w).calls =
        [(Ec2Call.DescribeVpcEndpointServicePermissions region vpceid, some err)]) ∧
    (∀ w1 O,
      svc.DescribeVpcEndpointServicePermissions w region vpceid = (w1, Except.ok O) →
      principalsOnEndpoint O = none →
      (updateEndpoint svc config region vpceid w).calls =
        [(Ec2Call.DescribeVpcEndpointServicePermissions region vpceid, none)]) := by
  have herr : ∀ w1 err,
      svc.DescribeVpcEndpointServicePermissions w region vpceid = (w1, Except.error err) →
      (updateEndpoint svc config region vpceid w).calls =
        [(Ec2Call.DescribeVpcEndpointServicePermissions region vpceid, some err)] := by
    intro w1 err hd
    rw [updateEndpoint_describe_err svc config region vpceid w w1 err hd]
  have hpanic : ∀ w1 O,
      svc.DescribeVpcEndpointServicePermissions w region vpceid = (w1, Except.ok O) →
      principalsOnEndpoint O = none →
      (updateEndpoint svc config region vpceid w).calls =
        [(Ec2Call.DescribeVpcEndpointServicePermissions region vpceid, none)] := by
    intro w1 O hd hN
    rw [updateEndpoint_panic svc config region vpceid w w1 O hd hN]
  refine ⟨?_, fun w1 O N hd hN => updateEndpoint_calls_of_diff svc config region vpceid w w1
    O N hd hN, herr, hpanic⟩
  rcases hd : svc.DescribeVpcEndpointServicePermissions w region vpceid with ⟨w1, err | O⟩
  · rw [herr w1 err hd]; simp [Ec2Call.isModify]
  · rcases hN : principalsOnEndpoint O with _ | N
    · rw [hpanic w1 O hd hN]; simp [Ec2Call.isModify]
    · have h := updateEndpoint_calls_of_diff svc config region vpceid w w1 O N hd hN
      by_cases hempty : (permDiff config.PLAllowedPeers N).principalsToAdd = [] ∧
          (permDiff config.PLAllowedPeers N).principalsToRemove = []
      · rw [h.1 hempty]; simp [Ec2Call.isModify]
      · obtain ⟨outcome, hcalls⟩ := h.2 hempty
        rw [hcalls]; simp [Ec2Call.isModify]

/-- Witness of C8: the account 111111111111 is desired and the account 222222222222 is
allowed; one modify call adds the first and removes the second. -/
theorem updateEndpoint_single_modify_witness :
    ∃ outcome, (updateEndpoint sampleEc2 sampleConfig "us-east-1" "vpce-svc-1"
        ["arn:aws:iam::222222222222:root"]).calls =
      [(Ec2Call.DescribeVpcEndpointServicePermissions "us-east-1" "vpce-svc-1", none),
       (Ec2Call.ModifyVpcEndpointServicePermissions "us-east-1" "vpce-svc-1"
          (some ["arn:aws:iam::111111111111:root"])
          (some ["arn:aws:iam::222222222222:root"]), outcome)] := by
  have h := (updateEndpoint_single_modify sampleEc2 sampleConfig "us-east-1" "vpce-svc-1"
    ["arn:aws:iam::222222222222:root"]).2.1 ["arn:aws:iam::222222222222:root"]
    ["arn:aws:iam::222222222222:root"] ["222222222222"] (by simp [sampleEc2]) (by decide)
  have hp : permDiff sampleConfig.PLAllowedPeers ["222222222222"] =
      { principalsToAdd := ["arn:aws:iam::111111111111:root"],
        principalsToRemove := ["arn:aws:iam::222222222222:root"], changes := true } := by
    decide
  rw [hp] at h
  obtain ⟨outcome, hcalls⟩ := h.2 (by decide)
  exact ⟨outcome, hcalls⟩

/-! ## Idempotence -/

/-- C4. When the identifiers read from a target group have the same members as the desired
list, `updateTargets` computes empty additions and removals for the group, issues the read
and no write call, and prints nothing for it. When the principals read from an endpoint
service, once normalised, have the same members as the desired accounts,
`updateVPCEndpointPermissions` computes empty additions and removals, issues the read and
no modify call, and prints the "No PL permisisons changes" line. -/
theorem reconcile_idempotent {σ τ ε : Type} (elb : Elbv2 σ ε) (ec2 : Ec2 τ ε)
    (config : Config) (D : List String) (region tg vpceid : String) (w : σ) (v : τ) :
    (∀ w1 resp, elb.DescribeTargetHealth w region tg = (w1, Except.ok resp) →
      (∀ x, x ∈ resp.map (fun t => t.Target.Id) ↔ x ∈ D) →
      (regNew config D (resp.map (fun t => t.Target.Id))).ips = [] ∧
      (deregOld config D (resp.map (fun t => t.Target.Id))).ips = [] ∧
      (updateTargetGroup elb config D region tg w).calls =
        [(Elbv2Call.DescribeTargetHealth region tg, none)] ∧
      (updateTargetGroup elb config D region tg w).calls.filter (fun c => c.1.isWrite) = [] ∧
      (updateTargetGroup elb config D region tg w).out = [] ∧
      (updateTargetGroup elb config D region tg w).ret = none ∧
      (updateTargetGroup elb config D region tg w).world = w1) ∧
    (∀ v1 O N, ec2.DescribeVpcEndpointServicePermissions v region vpceid = (v1, Except.ok O) →
      principalsOnEndpoint O = some N →
      (∀ x, x ∈ N ↔ x ∈ config.PLAllowedPeers) →
      (permDiff config.PLAllowedPeers N).principalsToAdd = [] ∧
      (permDiff config.PLAllowedPeers N).principalsToRemove = [] ∧
      (updateEndpoint ec2 config region vpceid v).calls =
        [(Ec2Call.DescribeVpcEndpointServicePermissions region vpceid, none)] ∧
      (updateEndpoint ec2 config region vpceid v).calls.filter (fun c => c.1.isModify) = [] ∧
      (updateEndpoint ec2 config region vpceid v).out =
        ["INFO : " ++ region ++ "/" ++ vpceid ++ ": No PL permisisons changes\n"] ∧
      (updateEndpoint ec2 config region vpceid v).ret = Ret.nil ∧
      (updateEndpoint ec2 config region vpceid v).world = v1) := by
  constructor
  · intro w1 resp hd hsame
    have hr : (regNew config D (resp.map (fun t => t.Target.Id))).ips = [] := by
      rw [List.eq_nil_iff_forall_not_mem]
      intro x hx
      rw [mem_regNew_ips] at hx
      exact hx.2 ((hsame x).2 hx.1)
    have hx : (deregOld config D (resp.map (fun t => t.Target.Id))).ips = [] := by
      rw [List.eq_nil_iff_forall_not_mem]
      intro x hx
      rw [mem_deregOld_ips] at hx
      exact hx.2 ((hsame x).1 hx.1)
    rw [updateTargetGroup_no_register elb config D region tg w w1 resp hd hr,
      deregisterAndReport_nil elb config D region tg _ _ _ _ _ hx]
    refine ⟨hr, hx, rfl, ?_, ?_, rfl, rfl⟩
    · simp [Elbv2Call.isWrite]
    · simp [reportTargets]
  · intro v1 O N hd hN hsame
    have ha : (permDiff config.PLAllowedPeers N).principalsToAdd = [] := by
      rw [permDiff_eq]
      simp only [List.map_eq_nil_iff, List.filter_eq_nil_iff]
      intro a ha
      simp [(contains_iff N a).2 ((hsame a).2 ha)]
    have hr : (permDiff config.PLAllowedPeers N).principalsToRemove = [] := by
      rw [permDiff_eq]
      simp only [List.map_eq_nil_iff, List.filter_eq_nil_iff]
      intro a ha
      simp [(contains_iff config.PLAllowedPeers a).2 ((hsame a).1 ha)]
    have hc : (permDiff config.PLAllowedPeers N).changes = false := by
      rw [← Bool.not_eq_true, permDiff_changes]
      simp [ha, hr]
    rw [updateEndpoint_no_changes ec2 config region vpceid v v1 O N hd hN hc]
    refine ⟨ha, hr, rfl, ?_, rfl, rfl, rfl⟩
    simp [Ec2Call.isModify]

/-- Witness of C4: the host 10.0.0.1 is desired and registered in the group tg-a; the
account 111111111111 is desired and allowed on the endpoint service. -/
theorem reconcile_idempotent_witness :
    (updateTargetGroup sampleElbv2 sampleConfig ["10.0.0.1"] "us-east-1" "tg-a"
      [("tg-a", "10.0.0.1")]).calls =
        [(Elbv2Call.DescribeTargetHealth "us-east-1" "tg-a", none)] ∧
    (updateTargetGroup sampleElbv2 sampleConfig ["10.0.0.1"] "us-east-1" "tg-a"
      [("tg-a", "10.0.0.1")]).out = [] ∧
    (updateEndpoint sampleEc2 sampleConfig "us-east-1" "vpce-svc-1"
      ["arn:aws:iam::111111111111:root"]).calls =
        [(Ec2Call.DescribeVpcEndpointServicePermissions "us-east-1" "vpce-svc-1", none)] ∧
    (updateEndpoint sampleEc2 sampleConfig "us-east-1" "vpce-svc-1"
      ["arn:aws:iam::111111111111:root"]).out =
        ["INFO : us-east-1/vpce-svc-1: No PL permisisons changes\n"] := by
  have h := reconcile_idempotent sampleElbv2 sampleEc2 sampleConfig ["10.0.0.1"] "us-east-1"
    "tg-a" "vpce-svc-1" [("tg-a", "10.0.0.1")] ["arn:aws:iam::111111111111:root"]
  have h1 := h.1 [("tg-a", "10.0.0.1")]
    [{ Target := { AvailabilityZone := "all", Id := "10.0.0.1", Port := 443 } }]
    (by simp [sampleElbv2]) (by simp)
  have h2 := h.2 ["arn:aws:iam::111111111111:root"] ["arn:aws:iam::111111111111:root"]
    ["111111111111"] (by simp [sampleEc2]) (by decide) (by simp [sampleConfig])
  refine ⟨h1.2.2.1, h1.2.2.2.2.1, h2.2.2.1, ?_⟩
  rw [h2.2.2.2.2.1]
  decide

/-! ## Endpoint services: which principals are added and removed -/

theorem filter_not_contains (xs ys : List String) :
    xs.filter (fun a => !contains ys a) = xs.filter (fun a => decide (a ∉ ys)) := by
  apply List.filter_congr
  intro x _
  by_cases h : x ∈ ys <;> simp [h, (contains_iff ys x).2, (contains_eq_false_iff ys x).2]

/-- C2, the claim as worded fails: with nothing desired and the wildcard "*" observed, the
removal entry is "*" itself and not the root-account ARN built from it. -/
theorem endpoint_removals_not_always_arn :
    principalsOnEndpoint ["*"] = some ["*"] ∧
    (permDiff [] ["*"]).principalsToRemove = ["*"] ∧
    removalsAsSpecified [] ["*"] = ["arn:aws:iam::*:root"] ∧
    (permDiff [] ["*"]).principalsToRemove ≠ removalsAsSpecified [] ["*"] := by
  decide

/-- C2, amended. Whenever every observed principal normalises, with `N` the normalised
forms (the account number of a principal containing ":root", the principal itself
otherwise): `principalsToAdd` is the list of "arn:aws:iam::<a>:root" for the accounts `a`
of `D`, in the order of `D`, that are not in `N`; `principalsToRemove` has one entry for
each member of `N`, in order, that is not in `D`, that entry being the root-account ARN
when the member is 12 bytes long and the member itself otherwise. -/
theorem endpoint_diff_normalised (D O N : List String)
    (h : principalsOnEndpoint O = some N) :
    O.map normalise = N.map some ∧
    (permDiff D N).principalsToAdd =
      (D.filter (fun a => decide (a ∉ N))).map (fun a => "arn:aws:iam::" ++ a ++ ":root") ∧
    (permDiff D N).principalsToRemove =
      (N.filter (fun a => decide (a ∉ D))).map
        (fun a => if a.utf8ByteSize = 12 then "arn:aws:iam::" ++ a ++ ":root" else a) := by
  refine ⟨(principalsOnEndpoint_eq_some_iff O N).1 h, ?_, ?_⟩
  · rw [permDiff_eq, filter_not_contains]
    rfl
  · rw [permDiff_eq]
    simp only [filter_not_contains]
    rfl

/-- Witness of the amended C2, at the scenario of the specification: the account
111111111111 is desired and the root ARN of 222222222222 is observed. -/
theorem endpoint_diff_normalised_witness :
    principalsOnEndpoint ["arn:aws:iam::222222222222:root"] = some ["222222222222"] ∧
    (permDiff ["111111111111"] ["222222222222"]).principalsToAdd =
      ["arn:aws:iam::111111111111:root"] ∧
    (permDiff ["111111111111"] ["222222222222"]).principalsToRemove =
      ["arn:aws:iam::222222222222:root"] := by
  have h0 : principalsOnEndpoint ["arn:aws:iam::222222222222:root"] = some ["222222222222"] := by
    decide
  have h := endpoint_diff_normalised ["111111111111"] ["arn:aws:iam::222222222222:root"]
    ["222222222222"] h0
  refine ⟨h0, ?_, ?_⟩
  · rw [h.2.1]; decide
  · rw [h.2.2]; decide

/-- C6, the claim as worded fails: the observed value "abcdefghijkl" is neither an account
number nor a root-account ARN and is not desired, yet the removals carry it re-wrapped as
an ARN and not verbatim. -/
theorem opaque_principal_rewrapped :
    isAccountNumber "abcdefghijkl" = false ∧
    isRootAccountArn "abcdefghijkl" = false ∧
    "abcdefghijkl" ∉ sampleConfig.PLAllowedPeers ∧
    principalsOnEndpoint ["abcdefghijkl"] = some ["abcdefghijkl"] ∧
    (permDiff sampleConfig.PLAllowedPeers ["abcdefghijkl"]).principalsToRemove =
      ["arn:aws:iam::abcdefghijkl:root"] ∧
    "abcdefghijkl" ∉ (permDiff sampleConfig.PLAllowedPeers ["abcdefghijkl"]).principalsToRemove := by
  decide

/-- C6, amended. An observed principal `p` that does not contain ":root" and is not in the
desired list is kept as it is by the normalisation; the removals carry `p` verbatim when
`p` is not 12 bytes long, and carry "arn:aws:iam::<p>:root" when `p` is 12 bytes long,
whether or not `p` is made of digits. -/
theorem opaque_principal_passes_through (D O N : List String) (p : String)
    (hN : principalsOnEndpoint O = some N) (hp : p ∈ O)
    (hroot : stringsContains p ":root" = false) (hD : p ∉ D) :
    normalise p = some p ∧
    (p.utf8ByteSize ≠ 12 → p ∈ (permDiff D N).principalsToRemove) ∧
    (p.utf8ByteSize = 12 →
      "arn:aws:iam::" ++ p ++ ":root" ∈ (permDiff D N).principalsToRemove) := by
  have hnorm : normalise p = some p := by simp [normalise, hroot]
  have hmap := (principalsOnEndpoint_eq_some_iff O N).1 hN
  have hpN : p ∈ N := by
    have h1 : normalise p ∈ O.map normalise := List.mem_map_of_mem normalise hp
    rw [hmap, hnorm] at h1
    simpa using h1
  have hfilter : p ∈ N.filter (fun a => !contains D a) := by
    rw [List.mem_filter]
    exact ⟨hpN, by simp [(contains_eq_false_iff D p).2 hD]⟩
  have hmem := List.mem_map_of_mem
    (fun a : String => if a.utf8ByteSize = 12 then rootArn a else a) hfilter
  rw [permDiff_eq]
  refine ⟨hnorm, ?_, ?_⟩
  · intro hlen
    simpa [hlen] using hmem
  · intro hlen
    simpa [hlen, rootArn] using hmem

/-- Witness of the amended C6, at the scenario of the specification: the wildcard "*" is
observed and not desired; it is in the removals verbatim and its ARN form is not. -/
theorem opaque_principal_passes_through_witness :
    "*" ∈ (permDiff sampleConfig.PLAllowedPeers ["*"]).principalsToRemove ∧
    "arn:aws:iam::*:root" ∉ (permDiff sampleConfig.PLAllowedPeers ["*"]).principalsToRemove := by
  have h := opaque_principal_passes_through sampleConfig.PLAllowedPeers ["*"] ["*"] "*"
    (by decide) (by decide) (by decide) (by decide)
  exact ⟨h.2.1 (by decide), by decide⟩

/-! ## Normalisation: the index expression can be out of range -/

/-- C10, evaluated where it fails: the observed principal "foo:root" contains ":root" and
splits into two fields only, so field 4 does not exist; the normalisation is undefined
there and the run over an endpoint service that allows this principal ends in a panic
after the read. -/
theorem normalise_index_out_of_range :
    stringsContains "foo:root" ":root" = true ∧
    stringsSplit "foo:root" ":" = ["foo", "root"] ∧
    (stringsSplit "foo:root" ":")[4]? = none ∧
    normalise "foo:root" = none ∧
    (updateEndpoint sampleEc2 sampleConfig "us-east-1" "vpce-svc-1" ["foo:root"]).ret =
      Ret.panic := by
  decide

end Pipefitter
